import Mathlib

/-
Shallow embedding of the database resolution and caching subsystem of
prjtrellis (libtrellis/src/Database.cpp).

Modelling conventions:
- A boost property tree parsed from JSON is modelled by PTree: a data
  string plus an ordered list of keyed children (JSON objects keep file
  order; array elements carry empty keys).
- C++ exceptions are modelled with Except DbError.  Catalog misses
  (runtime_error in the find functions) become DbError.notFound, failed
  read_json becomes DbError.ioError, failed ptree lookups and failed
  number translation and std::stoi failures become DbError.parseError,
  a failed assert becomes DbError.consistencyError, and C++ undefined
  behaviour (dereferencing an end iterator, vector index out of range)
  becomes DbError.ubError.
- The process wide mutable state (tilegrid_cache, bitdb_store) is passed
  explicitly; the mutexes serialise the calls, so call sequences are
  modelled as sequential runs over that state.
- Machine integers: uint32_t and size_t conversions are taken modulo
  2 to the word size; int fields are Int with the range checks the C++
  library performs.
-/

namespace Trellis

/-- Error kinds of the database layer, following the error taxonomy of the
specification and the concrete C++ failure modes listed above. -/
inductive DbError where
  | notFound
  | ioError
  | parseError
  | consistencyError
  | ubError
  deriving DecidableEq, Repr

/-- Model of a boost property tree node: a data string and an ordered list
of keyed children. -/
inductive PTree where
  | mk (data : String) (children : List (String × PTree))

/-- Data string of a node. -/
def PTree.data : PTree → String
  | .mk d _ => d

/-- Ordered children of a node. -/
def PTree.children : PTree → List (String × PTree)
  | .mk _ c => c

/-- Leaf node carrying only a data string. -/
def PTree.leaf (d : String) : PTree := .mk d []

/-- Model of ptree get child: the empty path denotes the node itself,
otherwise the first child with the given key; a missing key throws. -/
def PTree.get_child (t : PTree) (key : String) : Except DbError PTree :=
  if key = "" then .ok t
  else
    match t.children.find? (fun c => c.1 = key) with
    | some c => .ok c.2
    | none => .error .parseError

/-- Model of ptree get of a string field: the data string of the child. -/
def PTree.getStr (t : PTree) (key : String) : Except DbError String := do
  let c ← t.get_child key
  .ok c.data

/-- Decimal digit predicate on the character code. -/
def isDigitC (c : Char) : Bool := 48 ≤ c.toNat && c.toNat ≤ 57

/-- Octal digit predicate. -/
def isOctC (c : Char) : Bool := 48 ≤ c.toNat && c.toNat ≤ 55

/-- Hexadecimal digit predicate. -/
def isHexC (c : Char) : Bool :=
  isDigitC c || (97 ≤ c.toNat && c.toNat ≤ 102) || (65 ≤ c.toNat && c.toNat ≤ 70)

/-- Numeric value of a digit character in any of the three bases. -/
def digitValC (c : Char) : Nat :=
  if 97 ≤ c.toNat then c.toNat - 87 else if 65 ≤ c.toNat then c.toNat - 55 else c.toNat - 48

/-- The C isspace predicate. -/
def cIsSpace (c : Char) : Bool := c.toNat = 32 || (9 ≤ c.toNat && c.toNat ≤ 13)

/-- Accumulate the maximal run of valid digits, as strtoul and strtol do. -/
def digitsRun (valid : Char → Bool) (base : Nat) : List Char → Nat → Nat
  | [], acc => acc
  | c :: r, acc => if valid c then digitsRun valid base r (acc * base + digitValC c) else acc

/-- Specification level value of a decimal digit string. -/
def digitsVal (ds : List Char) : Nat := ds.foldl (fun a c => a * 10 + (c.toNat - 48)) 0

/-- Consume an optional leading sign, returning the negation flag and the
remaining characters. -/
def dropSign : List Char → Bool × List Char
  | '-' :: r => (true, r)
  | '+' :: r => (false, r)
  | l => (false, l)

/-- Digit conversion of strtoul with base 0: a 0x prefix followed by a hex
digit selects hexadecimal, a leading 0 selects octal, otherwise decimal;
the maximal valid run is converted and no digits gives 0. -/
def baseRun : List Char → Nat
  | '0' :: x :: c :: r =>
    if (x = 'x' || x = 'X') && isHexC c then digitsRun isHexC 16 (c :: r) 0
    else digitsRun isOctC 8 ('0' :: x :: c :: r) 0
  | l => digitsRun isDigitC 10 l 0

/-- Model of strtoul with base 0: skip C whitespace, optional sign, base
detection and conversion, clamping to ULONG MAX on overflow, and a minus
sign negating in the unsigned domain. -/
def strtoul0 (s : String) : Nat :=
  let p := dropSign (s.data.dropWhile cIsSpace)
  let v := baseRun p.2
  if v > 18446744073709551615 then 18446744073709551615
  else if p.1 then (18446744073709551616 - v % 18446744073709551616) % 18446744073709551616
  else v

/-- Model of parse_uint32: strtoul with base 0 cast to uint32_t. -/
def parse_uint32 (s : String) : Nat := strtoul0 s % 4294967296

/-- Model of std::stoi (base 10): skip whitespace, optional sign, at least
one decimal digit is required (otherwise invalid_argument), the maximal
digit run is converted, and a value outside the int range throws. -/
def stoi (s : String) : Except DbError Int :=
  let p := dropSign (s.data.dropWhile cIsSpace)
  match p.2 with
  | [] => .error .parseError
  | c :: r =>
    if isDigitC c then
      let v : Int := (digitsRun isDigitC 10 (c :: r) 0 : Nat)
      let iv : Int := if p.1 then -v else v
      if iv < -2147483648 ∨ 2147483647 < iv then .error .parseError else .ok iv
    else .error .parseError

/-- Model of the boost stream translator for int used by ptree get of an
int field: an optional sign followed by decimal digits making up the whole
string, within the int range. -/
def parseIntStrict (s : String) : Except DbError Int :=
  let p := dropSign s.data
  if p.2 ≠ [] ∧ p.2.all isDigitC then
    let v : Int := (digitsRun isDigitC 10 p.2 0 : Nat)
    let iv : Int := if p.1 then -v else v
    if iv < -2147483648 ∨ 2147483647 < iv then .error .parseError else .ok iv
  else .error .parseError

/-- Model of ptree get of an int field. -/
def PTree.getInt (t : PTree) (key : String) : Except DbError Int := do
  let c ← t.get_child key
  parseIntStrict c.data

/-- Conversion of an int value to size_t, as the size_t casts in the
tilegrid loader perform. -/
def toSizeT (i : Int) : Nat := (i % 18446744073709551616).toNat

/-- First binding of a key in an association list. -/
def lookupA {κ α : Type} [DecidableEq κ] : List (κ × α) → κ → Option α
  | [], _ => none
  | (k, v) :: r, key => if key = k then some v else lookupA r key

/-- Insert a binding, shadowing any previous binding of the key. -/
def insertA {κ α : Type} (l : List (κ × α)) (k : κ) (v : α) : List (κ × α) := (k, v) :: l

/-- Device identity key: family plus device, equality by value. -/
structure DeviceLocator where
  family : String
  device : String
  deriving DecidableEq, Repr

/-- Key of the bit database cache: family plus tile type. -/
structure TileLocator where
  family : String
  tiletype : String
  deriving DecidableEq, Repr

/-- Inner loop of find_device_generic: scan the devices of one family in
file order, applying the fallible predicate to each. -/
def findDevlist (f : String → PTree → Except DbError Bool) (fam : String) :
    List (String × PTree) → Except DbError (Option DeviceLocator)
  | [] => .ok none
  | (dn, dp) :: rest => do
    let r ← f dn dp
    if r then .ok (some ⟨fam, dn⟩) else findDevlist f fam rest

/-- Outer loop of find_device_generic: scan the families in file order;
each family must have a devices child. -/
def findFamlist (f : String → PTree → Except DbError Bool) :
    List (String × PTree) → Except DbError (Option DeviceLocator)
  | [] => .ok none
  | (fn, fp) :: rest => do
    let devsN ← fp.get_child "devices"
    let r ← findDevlist f fn devsN.children
    match r with
    | some loc => .ok (some loc)
    | none => findFamlist f rest

/-- Model of find_device_generic: iterate through all family and device
permutations, returning the first locator satisfying the predicate. -/
def find_device_generic (devices_info : PTree) (f : String → PTree → Except DbError Bool) :
    Except DbError (Option DeviceLocator) := do
  let fams ← devices_info.get_child "families"
  findFamlist f fams.children

/-- Model of find_device_by_name: first device whose name matches; a miss
throws (NotFound). -/
def find_device_by_name (devices_info : PTree) (name : String) : Except DbError DeviceLocator := do
  let found ← find_device_generic devices_info (fun n _ => .ok (n == name))
  match found with
  | some loc => .ok loc
  | none => .error .notFound

/-- Model of find_device_by_idcode: first device whose idcode string,
parsed by parse_uint32, equals the requested idcode; a miss throws. -/
def find_device_by_idcode (devices_info : PTree) (idcode : Nat) : Except DbError DeviceLocator := do
  let found ← find_device_generic devices_info (fun _ p => do
    let s ← p.getStr "idcode"
    .ok (parse_uint32 s == idcode))
  match found with
  | some loc => .ok loc
  | none => .error .notFound

/-- Chip record derived from a catalog entry. -/
structure ChipInfo where
  family : String
  name : String
  num_frames : Int
  bits_per_frame : Int
  pad_bits_after_frame : Int
  pad_bits_before_frame : Int
  idcode : Nat
  max_row : Int
  max_col : Int
  col_bias : Int
  deriving DecidableEq, Repr

/-- Model of get_chip_info: keyed lookup into the loaded catalog followed
by field extraction, in the order of the C++ function. -/
def get_chip_info (devices_info : PTree) (part : DeviceLocator) : Except DbError ChipInfo := do
  let fams ← devices_info.get_child "families"
  let fam ← fams.get_child part.family
  let devsN ← fam.get_child "devices"
  let dev ← devsN.get_child part.device
  let nf ← dev.getInt "frames"
  let bpf ← dev.getInt "bits_per_frame"
  let pa ← dev.getInt "pad_bits_after_frame"
  let pb ← dev.getInt "pad_bits_before_frame"
  let idc ← dev.getStr "idcode"
  let mr ← dev.getInt "max_row"
  let mc ← dev.getInt "max_col"
  let cb ← dev.getInt "col_bias"
  .ok { family := part.family, name := part.device, num_frames := nf, bits_per_frame := bpf,
        pad_bits_after_frame := pa, pad_bits_before_frame := pb, idcode := parse_uint32 idc,
        max_row := mr, max_col := mc, col_bias := cb }

/-- Process environment: the database root and loaded catalog (the two
globals set by load_database), the file system visible to read_json as a
path keyed association list, and the outcome of the opaque TileBitDatabase
constructor for each path. -/
structure Env where
  db_root : String
  devices_info : PTree
  fs : List (String × PTree)
  bitdb_ctor : String → Except DbError Unit

/-- Model of pt::read_json on a path: the parsed tree, or an IO error when
the file is absent. -/
def read_json (e : Env) (path : String) : Except DbError PTree :=
  match lookupA e.fs path with
  | some t => .ok t
  | none => .error .ioError

/-- Effectful map over a list in order, stopping at the first error. -/
def mapME {α β : Type} (f : α → Except DbError β) : List α → Except DbError (List β)
  | [] => .ok []
  | a :: l => do
    let b ← f a
    let bs ← mapME f l
    .ok (b :: bs)

/-- Path of the per device globals file. -/
def globals_path (e : Env) (part : DeviceLocator) : String :=
  e.db_root ++ "/" ++ part.family ++ "/" ++ part.device ++ "/globals.json"

/-- ECP5 quadrant region. -/
structure GlobalRegion where
  name : String
  x0 : Int
  x1 : Int
  y0 : Int
  y1 : Int
  deriving DecidableEq, Repr

/-- ECP5 tap segment. -/
structure TapSegment where
  tap_col : Int
  lx0 : Int
  lx1 : Int
  rx0 : Int
  rx1 : Int
  deriving DecidableEq, Repr

/-- ECP5 spine segment. -/
structure SpineSegment where
  quadrant : String
  tap_col : Int
  spine_row : Int
  spine_col : Int
  deriving DecidableEq, Repr

/-- ECP5 globals topology. -/
structure Ecp5GlobalsInfo where
  quadrants : List GlobalRegion
  tapsegs : List TapSegment
  spinesegs : List SpineSegment
  deriving DecidableEq, Repr

/-- Model of std::string substr from an index: clamping never happens for
the start index, an index past the end throws out_of_range. -/
def substrFrom (s : String) (i : Nat) : Except DbError String :=
  if i ≤ s.data.length then .ok ⟨s.data.drop i⟩ else .error .parseError

/-- One quadrant entry of the ECP5 globals file. -/
def parseQuad (c : String × PTree) : Except DbError GlobalRegion := do
  let x0 ← c.2.getInt "x0"
  let x1 ← c.2.getInt "x1"
  let y0 ← c.2.getInt "y0"
  let y1 ← c.2.getInt "y1"
  .ok ⟨c.1, x0, x1, y0, y1⟩

/-- One tap entry of the ECP5 globals file: the key is asserted to start
with the character C, the remainder is parsed with stoi. -/
def parseTap (c : String × PTree) : Except DbError TapSegment :=
  match c.1.data with
  | 'C' :: _ => do
    let sub ← substrFrom c.1 1
    let tc ← stoi sub
    let lx0 ← c.2.getInt "lx0"
    let lx1 ← c.2.getInt "lx1"
    let rx0 ← c.2.getInt "rx0"
    let rx1 ← c.2.getInt "rx1"
    .ok ⟨tc, lx0, lx1, rx0, rx1⟩
  | _ => .error .consistencyError

/-- One spine entry of the ECP5 globals file: the first two key characters
name the quadrant, the remainder is parsed with stoi. -/
def parseSpine (c : String × PTree) : Except DbError SpineSegment := do
  let sub ← substrFrom c.1 2
  let tc ← stoi sub
  let y ← c.2.getInt "y"
  let x ← c.2.getInt "x"
  .ok ⟨⟨c.1.data.take 2⟩, tc, y, x⟩

/-- Model of get_global_info_ecp5: read the globals file and collect the
quadrant, tap and spine collections in file order. -/
def get_global_info_ecp5 (e : Env) (part : DeviceLocator) : Except DbError Ecp5GlobalsInfo := do
  let tree ← read_json e (globals_path e part)
  let qn ← tree.get_child "quadrants"
  let quads ← mapME parseQuad qn.children
  let tn ← tree.get_child "taps"
  let taps ← mapME parseTap tn.children
  let sn ← tree.get_child "spines"
  let spines ← mapME parseSpine sn.children
  .ok ⟨quads, taps, spines⟩

/-- MachXO2 left right connection. -/
structure LeftRightConn where
  name : String
  row : Int
  row_span : Int × Int
  deriving DecidableEq, Repr

/-- MachXO2 missing DCC record. -/
structure MissingDccs where
  row : Int
  missing : List Int
  deriving DecidableEq, Repr

/-- MachXO2 globals topology. -/
structure MachXO2GlobalsInfo where
  lr_conns : List LeftRightConn
  ud_conns : List (List Int)
  branch_spans : List (List (Int × Int))
  missing_dccs : List MissingDccs
  deriving DecidableEq, Repr

/-- One lr-conns entry: a row field, then the first two elements of the
row-span child read through the begin iterator; fewer than two elements
is undefined behaviour in the C++ code. -/
def parseLR (c : String × PTree) : Except DbError LeftRightConn := do
  let row ← c.2.getInt "row"
  let rs ← c.2.get_child "row-span"
  match rs.children with
  | a :: b :: _ => do
    let x ← parseIntStrict a.2.data
    let y ← parseIntStrict b.2.data
    .ok ⟨c.1, row, (x, y)⟩
  | _ => .error .ubError

/-- The ud-conns loop: each key is parsed with stoi and asserted equal to
the running column counter (an assert failure is the consistency check),
then the element list of the column is read. -/
def parseUDs : Nat → List (String × PTree) → Except DbError (List (List Int))
  | _, [] => .ok []
  | col, (k, v) :: rest => do
    let m ← stoi k
    if m = (col : Int) then do
      let inner ← v.get_child ""
      let udc ← mapME (fun g => parseIntStrict g.2.data) inner.children
      let others ← parseUDs (col + 1) rest
      .ok (udc :: others)
    else .error .consistencyError

/-- Spans of one branch-spans column: for each global index declared in
the matching ud-conns column, look up the child keyed by the decimal
rendering of that index and read its first two elements. -/
def parseSpanCol (spansNode : PTree) : List Int → Except DbError (List (Int × Int))
  | [] => .ok []
  | g :: gs => do
    let node ← spansNode.get_child (toString g)
    match node.children with
    | a :: b :: _ => do
      let x ← parseIntStrict a.2.data
      let y ← parseIntStrict b.2.data
      let rest ← parseSpanCol spansNode gs
      .ok ((x, y) :: rest)
    | _ => .error .ubError

/-- The branch-spans loop: keys are asserted to follow the running column
counter; the ud_conns vector is indexed with the counter, so a column
count beyond the ud-conns count is undefined behaviour. -/
def parseSpans (uds : List (List Int)) : Nat → List (String × PTree) →
    Except DbError (List (List (Int × Int)))
  | _, [] => .ok []
  | col, (k, v) :: rest => do
    let m ← stoi k
    if m = (col : Int) then
      match uds.get? col with
      | some udc => do
        let sp ← parseSpanCol v udc
        let others ← parseSpans uds (col + 1) rest
        .ok (sp :: others)
      | none => .error .ubError
    else .error .consistencyError

/-- One missing-dccs entry. -/
def parseMissing (c : String × PTree) : Except DbError MissingDccs := do
  let row ← stoi c.1
  let inner ← c.2.get_child ""
  let ms ← mapME (fun d => parseIntStrict d.2.data) inner.children
  .ok ⟨row, ms⟩

/-- Model of get_global_info_machxo2: read the globals file and parse the
four sections in order. -/
def get_global_info_machxo2 (e : Env) (part : DeviceLocator) :
    Except DbError MachXO2GlobalsInfo := do
  let tree ← read_json e (globals_path e part)
  let lrN ← tree.get_child "lr-conns"
  let lrs ← mapME parseLR lrN.children
  let udN ← tree.get_child "ud-conns"
  let uds ← parseUDs 0 udN.children
  let bsN ← tree.get_child "branch-spans"
  let spans ← parseSpans uds 0 bsN.children
  let mdN ← tree.get_child "missing-dccs"
  let mds ← mapME parseMissing mdN.children
  .ok ⟨lrs, uds, spans, mds⟩

/-- Placement site inside a tile. -/
structure SiteInfo where
  type : String
  col : Int
  row : Int
  deriving DecidableEq, Repr

/-- One tile of the device grid. -/
structure TileInfo where
  family : String
  device : String
  max_col : Int
  max_row : Int
  col_bias : Int
  name : String
  num_frames : Nat
  bits_per_frame : Nat
  bit_offset : Nat
  frame_offset : Nat
  type : String
  sites : List SiteInfo
  deriving DecidableEq, Repr

/-- One site entry of a tile record. -/
def parseSite (s : String × PTree) : Except DbError SiteInfo := do
  let ty ← s.2.getStr "name"
  let pc ← s.2.getInt "pos_col"
  let pr ← s.2.getInt "pos_row"
  .ok ⟨ty, pc, pr⟩

/-- One tile entry of the tilegrid file, built from the caller locator,
the chip info and the raw entry, with the size_t casts of the C++ code. -/
def tileOfChild (part : DeviceLocator) (info : ChipInfo) (c : String × PTree) :
    Except DbError TileInfo := do
  let cols ← c.2.getInt "cols"
  let rows ← c.2.getInt "rows"
  let sb ← c.2.getInt "start_bit"
  let sf ← c.2.getInt "start_frame"
  let ty ← c.2.getStr "type"
  let sitesN ← c.2.get_child "sites"
  let sites ← mapME parseSite sitesN.children
  .ok { family := part.family, device := part.device, max_col := info.max_col,
        max_row := info.max_row, col_bias := info.col_bias, name := c.1,
        num_frames := toSizeT cols, bits_per_frame := toSizeT rows,
        bit_offset := toSizeT sb, frame_offset := toSizeT sf, type := ty, sites := sites }

/-- Path of the per device tilegrid file. -/
def tilegrid_path (e : Env) (part : DeviceLocator) : String :=
  e.db_root ++ "/" ++ part.family ++ "/" ++ part.device ++ "/tilegrid.json"

/-- Model of get_device_tilegrid over an explicit cache state.  The cache
is keyed by the device string of the locator, exactly as the C++ map is;
on a miss the file is read and the raw tree inserted, on a hit no file
access happens; the TileInfo list is rebuilt from the raw tree on every
call.  The db_root assert and the chip info lookup precede the cache
check.  The function returns the result together with the cache state
left behind (unchanged when an error is thrown before the insert). -/
def get_device_tilegrid (e : Env) (part : DeviceLocator) (cache : List (String × PTree)) :
    Except DbError (List TileInfo) × List (String × PTree) :=
  if e.db_root = "" then (.error .consistencyError, cache)
  else
    match get_chip_info e.devices_info part with
    | .error err => (.error err, cache)
    | .ok info =>
      match lookupA cache part.device with
      | some tg => (mapME (tileOfChild part info) tg.children, cache)
      | none =>
        match read_json e (tilegrid_path e part) with
        | .error err => (.error err, cache)
        | .ok tg => (mapME (tileOfChild part info) tg.children, insertA cache part.device tg)

/-- State of the bit database cache: the handle store keyed by tile
locator, the next fresh handle identity, and the log of keys for which a
TileBitDatabase was successfully constructed. -/
structure BitdbState where
  store : List (TileLocator × Nat)
  next : Nat
  log : List TileLocator
  deriving DecidableEq, Repr

/-- The empty bit database cache at process start. -/
def initBitdb : BitdbState := ⟨[], 0, []⟩

/-- Path of the per tile type bit database file. -/
def bitdb_path (e : Env) (tile : TileLocator) : String :=
  e.db_root ++ "/" ++ tile.family ++ "/tiledata/" ++ tile.tiletype ++ "/bits.db"

/-- Model of get_tile_bitdata: a store hit returns the stored handle with
the state untouched; a miss asserts the root is set, runs the constructor
(whose outcome the environment prescribes), and only on success inserts
the fresh handle and logs the construction.  A constructor failure leaves
the store unchanged. -/
def get_tile_bitdata (e : Env) (tile : TileLocator) (st : BitdbState) :
    Except DbError Nat × BitdbState :=
  match lookupA st.store tile with
  | some h => (.ok h, st)
  | none =>
    if e.db_root = "" then (.error .consistencyError, st)
    else
      match e.bitdb_ctor (bitdb_path e tile) with
      | .error err => (.error err, st)
      | .ok _ => (.ok st.next, ⟨insertA st.store tile st.next, st.next + 1, st.log ++ [tile]⟩)

/-- Run a sequence of get_tile_bitdata calls (the mutex serialises them),
collecting the results in order. -/
def runCalls (e : Env) : List TileLocator → BitdbState → List (Except DbError Nat) × BitdbState
  | [], st => ([], st)
  | t :: ts, st =>
    let r := get_tile_bitdata e t st
    let rest := runCalls e ts r.2
    (r.1 :: rest.1, rest.2)

/-- Handles returned successfully for a given key from a run segment:
the ok results of the calls made with that key. -/
def collectFor (calls : List TileLocator) (rs : List (Except DbError Nat)) (k : TileLocator) :
    List Nat :=
  (calls.zip rs).filterMap (fun p => if p.1 = k then p.2.toOption else none)

/-- Handles returned successfully for a given key over a run from the
initial empty cache. -/
def okResultsFor (e : Env) (calls : List TileLocator) (k : TileLocator) : List Nat :=
  collectFor calls (runCalls e calls initBitdb).1 k

/-- Number of logged constructions for a key. -/
def countK (k : TileLocator) : List TileLocator → Nat
  | [] => 0
  | t :: r => (if t = k then 1 else 0) + countK k r

/-- Specification side view of the catalog used for the lookup refinement:
the flattened list of family, device and entry triples in catalog order.
This definition follows the wording of the specification, not the C++
loops, and is compared with them in the lookup theorems. -/
def flattenCatalog (t : PTree) : Except DbError (List (String × String × PTree)) := do
  let fams ← t.get_child "families"
  let parts ← mapME (fun f => do
    let devsN ← f.2.get_child "devices"
    .ok (devsN.children.map (fun d => (f.1, d.1, d.2)))) fams.children
  .ok parts.flatten

/-- Specification side first match scan over the flattened catalog: the
first triple whose idcode string parses to the requested idcode wins, and
an empty remainder is NotFound. -/
def firstIdcodeMatch (l : List (String × String × PTree)) (idcode : Nat) :
    Except DbError DeviceLocator :=
  match l with
  | [] => .error .notFound
  | (fn, dn, dp) :: rest => do
    let s ← dp.getStr "idcode"
    if parse_uint32 s = idcode then .ok ⟨fn, dn⟩ else firstIdcodeMatch rest idcode

/-- Specification side scan with a fallible predicate over the flattened
catalog, used to relate the nested loops to the flat first match view. -/
def scanFlat (f : String → PTree → Except DbError Bool) :
    List (String × String × PTree) → Except DbError (Option DeviceLocator)
  | [] => .ok none
  | (fn, dn, dp) :: rest => do
    let r ← f dn dp
    if r then .ok (some ⟨fn, dn⟩) else scanFlat f rest

/-- Catalog entry of the round trip scenario: idcode string 0x10 and 4
frames, with the remaining required numeric fields present. -/
def exDevF : PTree :=
  .mk "" [
    ("frames", .leaf "4"), ("bits_per_frame", .leaf "2"),
    ("pad_bits_after_frame", .leaf "1"), ("pad_bits_before_frame", .leaf "0"),
    ("idcode", .leaf "0x10"), ("max_row", .leaf "5"), ("max_col", .leaf "6"),
    ("col_bias", .leaf "0")]

/-- Catalog of the round trip scenario: one family F with one device D. -/
def exCatF : PTree :=
  .mk "" [("families", .mk "" [("F", .mk "" [("devices", .mk "" [("D", exDevF)])])])]

/-- Flattened view of the round trip catalog. -/
def exFlatF : List (String × String × PTree) := [("F", "D", exDevF)]

/-- Catalog whose only device has a non numeric idcode string. -/
def exCatNonNum : PTree :=
  .mk "" [("families", .mk "" [("G", .mk "" [("devices", .mk "" [
    ("N", .mk "" [("idcode", .leaf "abc")])])])])]

/-- Catalog with two families A and B that both contain a device named D,
with distinct idcodes. -/
def exCatAB : PTree :=
  .mk "" [("families", .mk "" [
    ("A", .mk "" [("devices", .mk "" [("D", exDevF)])]),
    ("B", .mk "" [("devices", .mk "" [
      ("D", .mk "" [
        ("frames", .leaf "4"), ("bits_per_frame", .leaf "2"),
        ("pad_bits_after_frame", .leaf "1"), ("pad_bits_before_frame", .leaf "0"),
        ("idcode", .leaf "0x11"), ("max_row", .leaf "5"), ("max_col", .leaf "6"),
        ("col_bias", .leaf "0")])])])])]

/-- A well formed raw tile entry. -/
def exTileBody : PTree :=
  .mk "" [("cols", .leaf "1"), ("rows", .leaf "2"), ("start_bit", .leaf "0"),
          ("start_frame", .leaf "3"), ("type", .leaf "T"),
          ("sites", .mk "" [("", .mk "" [
            ("name", .leaf "S"), ("pos_col", .leaf "1"), ("pos_row", .leaf "2")])])]

/-- Environment in which families A and B each have their own tilegrid
file for the device D, with differently named tiles. -/
def exEnvTg : Env :=
  ⟨"r", exCatAB,
   [("r/A/D/tilegrid.json", .mk "" [("tA", exTileBody)]),
    ("r/B/D/tilegrid.json", .mk "" [("tB", exTileBody)])],
   fun _ => .ok ()⟩

/-- The TileInfo built for the tile tA of family A, device D. -/
def exTileA : TileInfo :=
  { family := "A", device := "D", max_col := 6, max_row := 5, col_bias := 0, name := "tA",
    num_frames := 1, bits_per_frame := 2, bit_offset := 0, frame_offset := 3, type := "T",
    sites := [⟨"S", 1, 2⟩] }

/-- MachXO2 globals file in which column 0 declares the up down indices
0 and 1 but the branch-spans object of column 0 has three entries: the
span counts disagree element for element, with extra entries. -/
def exMx2TreeExtra : PTree :=
  .mk "" [
    ("lr-conns", .mk "" []),
    ("ud-conns", .mk "" [("0", .mk "" [("", .leaf "0"), ("", .leaf "1")])]),
    ("branch-spans", .mk "" [("0", .mk "" [
      ("0", .mk "" [("", .leaf "1"), ("", .leaf "2")]),
      ("1", .mk "" [("", .leaf "3"), ("", .leaf "4")]),
      ("2", .mk "" [("", .leaf "5"), ("", .leaf "6")])])]),
    ("missing-dccs", .mk "" [])]

/-- Environment serving the extra spans file. -/
def exEnvMx2Extra : Env :=
  ⟨"r", exCatF, [("r/machxo2/dev/globals.json", exMx2TreeExtra)], fun _ => .ok ()⟩

/-- MachXO2 globals file in which column 2 declares three up down indices
but its branch-spans object has entries for only two of them. -/
def exMx2TreeMissing : PTree :=
  .mk "" [
    ("lr-conns", .mk "" []),
    ("ud-conns", .mk "" [
      ("0", .mk "" [("", .leaf "0")]),
      ("1", .mk "" [("", .leaf "1")]),
      ("2", .mk "" [("", .leaf "0"), ("", .leaf "1"), ("", .leaf "2")])]),
    ("branch-spans", .mk "" [
      ("0", .mk "" [("0", .mk "" [("", .leaf "1"), ("", .leaf "2")])]),
      ("1", .mk "" [("1", .mk "" [("", .leaf "1"), ("", .leaf "2")])]),
      ("2", .mk "" [
        ("0", .mk "" [("", .leaf "1"), ("", .leaf "2")]),
        ("1", .mk "" [("", .leaf "3"), ("", .leaf "4")])])]),
    ("missing-dccs", .mk "" [])]

/-- Environment serving the missing span file. -/
def exEnvMx2Missing : Env :=
  ⟨"r", exCatF, [("r/machxo2/dev/globals.json", exMx2TreeMissing)], fun _ => .ok ()⟩

/-- MachXO2 globals file whose ud-conns columns appear in file order
0, 2, 1. -/
def exMx2TreeOoo : PTree :=
  .mk "" [
    ("lr-conns", .mk "" []),
    ("ud-conns", .mk "" [
      ("0", .mk "" [("", .leaf "0")]),
      ("2", .mk "" [("", .leaf "1")]),
      ("1", .mk "" [("", .leaf "2")])]),
    ("branch-spans", .mk "" []),
    ("missing-dccs", .mk "" [])]

/-- Environment serving the out of order file. -/
def exEnvMx2Ooo : Env :=
  ⟨"r", exCatF, [("r/machxo2/dev/globals.json", exMx2TreeOoo)], fun _ => .ok ()⟩

/-- Body of the sample quadrant entry. -/
def exQuadBody : PTree :=
  .mk "" [("x0", .leaf "0"), ("x1", .leaf "1"), ("y0", .leaf "2"), ("y1", .leaf "3")]

/-- Body of the sample tap entry. -/
def exTapBody : PTree :=
  .mk "" [("lx0", .leaf "0"), ("lx1", .leaf "1"), ("rx0", .leaf "2"), ("rx1", .leaf "3")]

/-- Body of the sample spine entry. -/
def exSpineBody : PTree := .mk "" [("y", .leaf "9"), ("x", .leaf "8")]

/-- Quadrants node of the sample ECP5 globals file. -/
def exEcp5Quads : PTree := .mk "" [("UL", exQuadBody)]

/-- Taps node of the sample ECP5 globals file. -/
def exEcp5Taps : PTree := .mk "" [("C7", exTapBody)]

/-- Spines node of the sample ECP5 globals file. -/
def exEcp5Spines : PTree := .mk "" [("UL3", exSpineBody)]

/-- A small ECP5 globals file with one quadrant, one tap keyed C7 and one
spine keyed UL3. -/
def exEcp5Tree : PTree :=
  .mk "" [("quadrants", exEcp5Quads), ("taps", exEcp5Taps), ("spines", exEcp5Spines)]

/-- The globals record parsed from the sample ECP5 file. -/
def exEcp5Glbs : Ecp5GlobalsInfo :=
  ⟨[⟨"UL", 0, 1, 2, 3⟩], [⟨7, 0, 1, 2, 3⟩], [⟨"UL", 3, 9, 8⟩]⟩

/-- Environment serving the ECP5 globals file. -/
def exEnvEcp5 : Env := ⟨"r", exCatF, [("r/ECP5/dev/globals.json", exEcp5Tree)], fun _ => .ok ()⟩

/-- Environment whose bit database constructor always fails. -/
def exEnvBitFail : Env := ⟨"r", exCatF, [], fun _ => .error .ioError⟩

/-- Environment whose bit database constructor always succeeds. -/
def exEnvBitOk : Env := ⟨"r", exCatF, [], fun _ => .ok ()⟩

/-- Bind on an ok value reduces to the continuation. -/
@[simp] theorem dbBind_ok {α β : Type} (a : α) (k : α → Except DbError β) :
    (Except.ok a >>= k : Except DbError β) = k a := rfl

/-- Bind on an error propagates the error. -/
@[simp] theorem dbBind_error {α β : Type} (err : DbError) (k : α → Except DbError β) :
    ((Except.error err : Except DbError α) >>= k) = .error err := rfl

/-- Destructor for a successful bind. -/
theorem bind_ok_elim {α β : Type} {x : Except DbError α} {k : α → Except DbError β} {r : β}
    (h : (x >>= k) = .ok r) : ∃ a, x = .ok a ∧ k a = .ok r := by
  cases x with
  | ok a => exact ⟨a, rfl, h⟩
  | error e => simp at h

/-- Lookup after inserting the same key. -/
@[simp] theorem lookupA_insert_self {κ α : Type} [DecidableEq κ] (l : List (κ × α)) (k : κ)
    (v : α) : lookupA (insertA l k v) k = some v := by
  simp [lookupA, insertA]

/-- Lookup after inserting a different key. -/
theorem lookupA_insert_ne {κ α : Type} [DecidableEq κ] (l : List (κ × α)) (k k2 : κ) (v : α)
    (h : k2 ≠ k) : lookupA (insertA l k v) k2 = lookupA l k2 := by
  simp [lookupA, insertA, h]

/-- A run whose characters are all invalid adds nothing. -/
theorem digitsRun_invalid {valid : Char → Bool} {base : Nat} {l : List Char} (acc : Nat)
    (h : ∀ c ∈ l, valid c = false) : digitsRun valid base l acc = acc := by
  cases l with
  | nil => rfl
  | cons c r => simp [digitsRun, h c (by simp)]

/-- On an all digit list the run computes the decimal value by folding. -/
theorem digitsRun_digits : ∀ (l : List Char) (acc : Nat), (∀ c ∈ l, isDigitC c = true) →
    digitsRun isDigitC 10 l acc = l.foldl (fun a c => a * 10 + (c.toNat - 48)) acc := by
  intro l
  induction l with
  | nil => intro acc h; rfl
  | cons c r ih =>
    intro acc h
    have hc : isDigitC c = true := h c (by simp)
    have h57 : 48 ≤ c.toNat ∧ c.toNat ≤ 57 := by
      simp [isDigitC] at hc; omega
    have hv : digitValC c = c.toNat - 48 := by
      rw [digitValC, if_neg (by omega), if_neg (by omega)]
    rw [digitsRun, if_pos hc, hv, ih _ (fun d hd => h d (by simp [hd])), List.foldl]

/-- Dropping the sign of a list with a signless head keeps the list. -/
theorem dropSign_nosign {c : Char} {r : List Char} (h1 : c ≠ '-') (h2 : c ≠ '+') :
    dropSign (c :: r) = (false, c :: r) := by
  rw [dropSign.eq_def]
  split
  · next heq => exact absurd (List.head_eq_of_cons_eq heq) h1
  · next heq => exact absurd (List.head_eq_of_cons_eq heq) h2
  · rfl

/-- Dropping whitespace from a list with a non whitespace head keeps the
list. -/
theorem dropWhile_nospace {c : Char} (r : List Char) (h : cIsSpace c = false) :
    (c :: r).dropWhile cIsSpace = c :: r := by
  simp [List.dropWhile, h]

/-- Claim C2 counterexample: a MachXO2 globals file in which column 0
declares the up down connection indices 0 and 1 but the branch-spans
object of column 0 has three entries, so the two lists do not match
element for element, is nevertheless parsed successfully: the loader
looks up only the declared indices and ignores extra span entries, so
load_globals neither fails with ConsistencyError nor withholds the
GlobalsInfo value. -/
theorem claim_C2_counterexample :
    get_global_info_machxo2 exEnvMx2Extra ⟨"machxo2", "dev"⟩ =
      .ok ⟨[], [[0, 1]], [[(1, 2), (3, 4)]], []⟩ := by
  rfl

/-- Claim C2 amended: when a column of a MachXO2 globals file declares an
up down connection global index with no matching entry in that column
branch-spans object (here column 2 declares indices 0, 1 and 2 but spans
exist only for 0 and 1), load_globals fails with the missing key parse
error, not ConsistencyError, and returns no value; when every declared
index has a span entry the file parses even if extra span entries make
the counts differ. -/
theorem claim_C2_amended :
    get_global_info_machxo2 exEnvMx2Missing ⟨"machxo2", "dev"⟩ = .error .parseError ∧
    get_global_info_machxo2 exEnvMx2Extra ⟨"machxo2", "dev"⟩ =
      .ok ⟨[], [[0, 1]], [[(1, 2), (3, 4)]], []⟩ := by
  exact ⟨rfl, rfl⟩

/-- Membership survives dropWhile. -/
theorem mem_of_dropWhile {p : Char → Bool} :
    ∀ {l : List Char} {c : Char}, c ∈ l.dropWhile p → c ∈ l := by
  intro l
  induction l with
  | nil => intro c hc; simp at hc
  | cons a t ih =>
    intro c hc
    cases ha : p a with
    | true =>
      rw [List.dropWhile_cons, if_pos (by simp [ha])] at hc
      exact List.mem_cons_of_mem _ (ih hc)
    | false =>
      rw [List.dropWhile_cons, if_neg (by simp [ha])] at hc
      exact hc

/-- Membership in the sign stripped remainder implies membership in the
original list. -/
theorem dropSign_tail_subset : ∀ (l : List Char), ∀ c ∈ (dropSign l).2, c ∈ l := by
  intro l
  rw [dropSign.eq_def]
  split
  · intro c hc; exact List.mem_cons_of_mem _ hc
  · intro c hc; exact List.mem_cons_of_mem _ hc
  · intro c hc; exact hc

/-- The base selecting digit conversion of strtoul yields 0 on a list
without decimal digits. -/
theorem baseRun_no_digit (l : List Char) (h : ∀ c ∈ l, isDigitC c = false) : baseRun l = 0 := by
  rw [baseRun.eq_def]
  split
  · next x c r =>
    have h0 := h '0' (List.mem_cons_self _ _)
    exact absurd h0 (by decide)
  · next l2 _ => exact digitsRun_invalid 0 h

/-- parse_uint32 of a string with no decimal digit character is 0. -/
theorem parse_uint32_no_digit (s : String) (h : ∀ c ∈ s.data, isDigitC c = false) :
    parse_uint32 s = 0 := by
  have h2 : ∀ c ∈ (dropSign (s.data.dropWhile cIsSpace)).2, isDigitC c = false := by
    intro c hc
    exact h c (mem_of_dropWhile (dropSign_tail_subset _ c hc))
  have h3 : baseRun (dropSign (s.data.dropWhile cIsSpace)).2 = 0 := baseRun_no_digit _ h2
  unfold parse_uint32 strtoul0
  simp only [h3]
  cases hb : (dropSign (s.data.dropWhile cIsSpace)).1 <;> norm_num

/-- Claim C9: parse_uint32 never fails: every string with no parseable
integer content (no decimal digit at all, in particular the examples abc
and the empty string) yields 0 rather than an error, leading zero octal
notation is accepted (010 parses to 8), and consequently
find_device_by_idcode with idcode 0 returns the first catalog device
whose idcode string is non numeric instead of reporting it as
malformed. -/
theorem claim_C9_parse_uint32_total :
    (∀ s : String, (∀ c ∈ s.data, isDigitC c = false) → parse_uint32 s = 0) ∧
    parse_uint32 "abc" = 0 ∧
    parse_uint32 "" = 0 ∧
    parse_uint32 "010" = 8 ∧
    find_device_by_idcode exCatNonNum 0 = .ok ⟨"G", "N"⟩ := by
  refine ⟨parse_uint32_no_digit, rfl, rfl, rfl, rfl⟩

/-- Witness for claim C9 at the concrete input abc. -/
theorem claim_C9_witness :
    (∀ c ∈ ("abc" : String).data, isDigitC c = false) ∧ parse_uint32 "abc" = 0 := by
  refine ⟨by decide, claim_C9_parse_uint32_total.1 "abc" (by decide)⟩

/-- If a prefix of the ud-conns children parses successfully and the next
key parses to a column index different from its position, the column loop
fails with the consistency error of the assert. -/
theorem parseUDs_append_err :
    ∀ (pre : List (String × PTree)) (col : Nat) (ls : List (List Int)) (k : String) (v : PTree)
      (rest : List (String × PTree)) (m : Int),
      parseUDs col pre = .ok ls → stoi k = .ok m → m ≠ ((col + pre.length : Nat) : Int) →
      parseUDs col (pre ++ (k, v) :: rest) = .error .consistencyError := by
  intro pre
  induction pre with
  | nil =>
    intro col ls k v rest m hpre hk hm
    simp only [List.nil_append, parseUDs, hk, dbBind_ok]
    rw [if_neg (by simpa using hm)]
  | cons hd tl ih =>
    intro col ls k v rest m hpre hk hm
    obtain ⟨k1, v1⟩ := hd
    simp only [parseUDs] at hpre
    obtain ⟨m1, hm1, hif⟩ := bind_ok_elim hpre
    by_cases hcol : m1 = (col : Int)
    · rw [if_pos hcol] at hif
      obtain ⟨inner, hinner, hif2⟩ := bind_ok_elim hif
      obtain ⟨udc, hudc, hif3⟩ := bind_ok_elim hif2
      obtain ⟨others, hothers, _⟩ := bind_ok_elim hif3
      have hm2 : m ≠ (((col + 1) + tl.length : Nat) : Int) := by
        simp only [List.length_cons] at hm
        omega
      simp only [List.cons_append, parseUDs, hm1, dbBind_ok]
      rw [if_pos hcol]
      simp only [hinner, dbBind_ok, hudc, List.append_eq]
      rw [ih (col + 1) others k v rest m hothers hk hm2]
      simp only [dbBind_error]
    · rw [if_neg hcol] at hif
      exact absurd hif (by simp)

/-- Claim C6: for every MachXO2 globals file that reads successfully,
whose lr-conns section parses, and whose ud-conns keys deviate from the
ascending ramp 0, 1, 2, ... at some position (the keys up to that point
follow the ramp and parse), load_globals fails with ConsistencyError and
returns no GlobalsInfo value. -/
theorem claim_C6_machxo2_out_of_order (e : Env) (part : DeviceLocator) (tree lrN udN : PTree)
    (lrs : List LeftRightConn) (pre : List (String × PTree)) (k : String) (v : PTree)
    (rest : List (String × PTree)) (ls : List (List Int)) (m : Int)
    (hread : read_json e (globals_path e part) = .ok tree)
    (hlrN : tree.get_child "lr-conns" = .ok lrN)
    (hlrs : mapME parseLR lrN.children = .ok lrs)
    (hudN : tree.get_child "ud-conns" = .ok udN)
    (hsplit : udN.children = pre ++ (k, v) :: rest)
    (hpre : parseUDs 0 pre = .ok ls)
    (hk : stoi k = .ok m)
    (hm : m ≠ ((pre.length : Nat) : Int)) :
    get_global_info_machxo2 e part = .error .consistencyError := by
  unfold get_global_info_machxo2
  rw [hread]
  simp only [dbBind_ok, hlrN, hlrs, hudN, hsplit,
    parseUDs_append_err pre 0 ls k v rest m hpre hk (by simpa using hm), dbBind_error]

/-- Witness for claim C6: the file with ud-conns keys in order 0, 2, 1 is
rejected with ConsistencyError. -/
theorem claim_C6_witness :
    stoi "2" = .ok 2 ∧ ((2 : Int) ≠ ((1 : Nat) : Int)) ∧
    get_global_info_machxo2 exEnvMx2Ooo ⟨"machxo2", "dev"⟩ = .error .consistencyError :=
  ⟨rfl, by decide,
    claim_C6_machxo2_out_of_order exEnvMx2Ooo ⟨"machxo2", "dev"⟩ exMx2TreeOoo
      (.mk "" []) (.mk "" [("0", .mk "" [("", .leaf "0")]), ("2", .mk "" [("", .leaf "1")]),
        ("1", .mk "" [("", .leaf "2")])]) []
      [("0", .mk "" [("", .leaf "0")])] "2" (.mk "" [("", .leaf "1")])
      [("1", .mk "" [("", .leaf "2")])] [[0]] 2 rfl rfl rfl rfl rfl rfl rfl (by decide)⟩

/-- A successful effectful map sends members of the output to members of
the input. -/
theorem mapME_ok_mem {α β : Type} {f : α → Except DbError β} :
    ∀ {l : List α} {bs : List β}, mapME f l = .ok bs → ∀ b ∈ bs, ∃ a ∈ l, f a = .ok b := by
  intro l
  induction l with
  | nil =>
    intro bs h b hb
    simp only [mapME] at h
    injection h with h2
    subst h2
    simp at hb
  | cons a t ih =>
    intro bs h b hb
    simp only [mapME] at h
    obtain ⟨b0, hb0, h2⟩ := bind_ok_elim h
    obtain ⟨bs0, hbs0, h3⟩ := bind_ok_elim h2
    injection h3 with h4
    subst h4
    rcases List.mem_cons.mp hb with rfl | hmem
    · exact ⟨a, List.mem_cons_self _ _, hb0⟩
    · obtain ⟨a2, ha2, hfa2⟩ := ih hbs0 b hmem
      exact ⟨a2, List.mem_cons_of_mem _ ha2, hfa2⟩

/-- A successful effectful map preserves the length. -/
theorem mapME_ok_length {α β : Type} {f : α → Except DbError β} :
    ∀ {l : List α} {bs : List β}, mapME f l = .ok bs → bs.length = l.length := by
  intro l
  induction l with
  | nil =>
    intro bs h
    simp only [mapME] at h
    injection h with h2
    subst h2
    rfl
  | cons a t ih =>
    intro bs h
    simp only [mapME] at h
    obtain ⟨b0, hb0, h2⟩ := bind_ok_elim h
    obtain ⟨bs0, hbs0, h3⟩ := bind_ok_elim h2
    injection h3 with h4
    subst h4
    simp [ih hbs0]

/-- A successful effectful map is pointwise successful, in order. -/
theorem mapME_ok_get {α β : Type} {f : α → Except DbError β} :
    ∀ {l : List α} {bs : List β}, mapME f l = .ok bs →
      ∀ (i : Nat) (hi : i < l.length) (hb : i < bs.length),
        f (l.get ⟨i, hi⟩) = .ok (bs.get ⟨i, hb⟩) := by
  intro l
  induction l with
  | nil => intro bs h i hi hb; simp at hi
  | cons a t ih =>
    intro bs h i hi hb
    simp only [mapME] at h
    obtain ⟨b0, hb0, h2⟩ := bind_ok_elim h
    obtain ⟨bs0, hbs0, h3⟩ := bind_ok_elim h2
    injection h3 with h4
    subst h4
    cases i with
    | zero => simpa using hb0
    | succ j => exact ih hbs0 j (by simpa using hi) (by simpa using hb)

/-- If each element maps successfully the whole map succeeds, whatever
the arrangement of the list. -/
theorem mapME_total {α β : Type} {f : α → Except DbError β} :
    ∀ {l : List α}, (∀ a ∈ l, ∃ b, f a = .ok b) → ∃ bs, mapME f l = .ok bs := by
  intro l
  induction l with
  | nil => intro _; exact ⟨[], rfl⟩
  | cons a t ih =>
    intro h
    obtain ⟨b, hb⟩ := h a (List.mem_cons_self _ _)
    obtain ⟨bs, hbs⟩ := ih (fun x hx => h x (List.mem_cons_of_mem _ hx))
    exact ⟨b :: bs, by simp only [mapME, hb, dbBind_ok, hbs]⟩

/-- A successfully built tile carries the family and device fields of the
caller supplied locator. -/
theorem tileOfChild_fields {part : DeviceLocator} {info : ChipInfo} {c : String × PTree}
    {ti : TileInfo} (h : tileOfChild part info c = .ok ti) :
    ti.family = part.family ∧ ti.device = part.device := by
  unfold tileOfChild at h
  obtain ⟨cols, h1, h⟩ := bind_ok_elim h
  obtain ⟨rows, h2, h⟩ := bind_ok_elim h
  obtain ⟨sb, h3, h⟩ := bind_ok_elim h
  obtain ⟨sf, h4, h⟩ := bind_ok_elim h
  obtain ⟨ty, h5, h⟩ := bind_ok_elim h
  obtain ⟨sitesN, h6, h⟩ := bind_ok_elim h
  obtain ⟨sites, h7, h⟩ := bind_ok_elim h
  injection h with h8
  subst h8
  exact ⟨rfl, rfl⟩

/-- Claim C7: once a call to get_device_tilegrid for a locator has
succeeded, calling again with the same locator from the state left behind
returns the structurally equal TileInfo list and the same state (the
output is rebuilt from the cached raw tree on every call, so the two
results are separately constructed values), and every returned TileInfo
carries the family and device fields of the caller supplied locator. -/
theorem claim_C7_tilegrid_repeat (e : Env) (part : DeviceLocator)
    (cache cache2 : List (String × PTree)) (l : List TileInfo)
    (h : get_device_tilegrid e part cache = (.ok l, cache2)) :
    get_device_tilegrid e part cache2 = (.ok l, cache2) ∧
    ∀ ti ∈ l, ti.family = part.family ∧ ti.device = part.device := by
  unfold get_device_tilegrid at h ⊢
  by_cases hroot : e.db_root = ""
  · rw [if_pos hroot] at h
    simp at h
  rw [if_neg hroot] at h ⊢
  cases hci : get_chip_info e.devices_info part with
  | error err =>
    rw [hci] at h
    exact absurd (congrArg Prod.fst h :
      (Except.error err : Except DbError (List TileInfo)) = .ok l) (by simp)
  | ok info =>
    rw [hci] at h
    cases hlk : lookupA cache part.device with
    | some tg =>
      rw [hlk] at h
      have hmap : mapME (tileOfChild part info) tg.children = .ok l := congrArg Prod.fst h
      have hcache : cache = cache2 := congrArg Prod.snd h
      subst hcache
      refine ⟨?_, ?_⟩
      · rw [hlk]
        show (mapME (tileOfChild part info) tg.children, cache) = (.ok l, cache)
        rw [hmap]
      · intro ti hti
        obtain ⟨c, hc, hok⟩ := mapME_ok_mem hmap ti hti
        exact tileOfChild_fields hok
    | none =>
      rw [hlk] at h
      cases hrj : read_json e (tilegrid_path e part) with
      | error err =>
        rw [hrj] at h
        exact absurd (congrArg Prod.fst h :
          (Except.error err : Except DbError (List TileInfo)) = .ok l) (by simp)
      | ok tg =>
        rw [hrj] at h
        have hmap : mapME (tileOfChild part info) tg.children = .ok l := congrArg Prod.fst h
        have hcache : insertA cache part.device tg = cache2 := congrArg Prod.snd h
        subst hcache
        refine ⟨?_, ?_⟩
        · rw [lookupA_insert_self]
          show (mapME (tileOfChild part info) tg.children, insertA cache part.device tg)
            = (.ok l, insertA cache part.device tg)
          rw [hmap]
        · intro ti hti
          obtain ⟨c, hc, hok⟩ := mapME_ok_mem hmap ti hti
          exact tileOfChild_fields hok

/-- Witness for claim C7: the first load for family A, device D, and the
repeated call from the resulting cache state. -/
theorem claim_C7_witness :
    get_device_tilegrid exEnvTg ⟨"A", "D"⟩ [] =
      (.ok [exTileA], [("D", PTree.mk "" [("tA", exTileBody)])]) ∧
    (get_device_tilegrid exEnvTg ⟨"A", "D"⟩ [("D", PTree.mk "" [("tA", exTileBody)])] =
      (.ok [exTileA], [("D", PTree.mk "" [("tA", exTileBody)])]) ∧
     ∀ ti ∈ [exTileA], ti.family = "A" ∧ ti.device = "D") :=
  ⟨rfl, claim_C7_tilegrid_repeat exEnvTg ⟨"A", "D"⟩ []
    [("D", PTree.mk "" [("tA", exTileBody)])] [exTileA] rfl⟩

/-- Claim C1 counterexample: the tile-grid cache is not keyed by the full
DeviceLocator.  In an environment where families A and B both contain a
device D with distinct tilegrid files (tile tA for A, tile tB for B), a
call for locator (B, D) made after a call for (A, D) returns the tiles of
the file of family A, while a fresh call for (B, D) from an empty cache
returns tile tB: the two locators with equal device strings share one
cache entry, and the second family file is never read. -/
theorem claim_C1_counterexample :
    ((get_device_tilegrid exEnvTg ⟨"B", "D"⟩
        (get_device_tilegrid exEnvTg ⟨"A", "D"⟩ []).2).1).map (List.map TileInfo.name)
      = .ok ["tA"] ∧
    ((get_device_tilegrid exEnvTg ⟨"B", "D"⟩ []).1).map (List.map TileInfo.name)
      = .ok ["tB"] :=
  ⟨rfl, rfl⟩

/-- Claim C1 amended: the tile-grid raw-parse cache is keyed by the device
string alone.  After any successful get_device_tilegrid call, every
locator with the same device string, whatever its family, hits the cache
entry left behind: the subsequent call never touches the file system, so
its outcome is unchanged under an arbitrary replacement of the file
system and of the bit database constructor. -/
theorem claim_C1_tilegrid_cache_device_keyed (e : Env) (p1 p2 : DeviceLocator)
    (cache : List (String × PTree)) (l : List TileInfo)
    (h : (get_device_tilegrid e p1 cache).1 = .ok l)
    (hdev : p2.device = p1.device)
    (fs2 : List (String × PTree)) (ctor2 : String → Except DbError Unit) :
    get_device_tilegrid ⟨e.db_root, e.devices_info, fs2, ctor2⟩ p2
        (get_device_tilegrid e p1 cache).2
      = get_device_tilegrid e p2 (get_device_tilegrid e p1 cache).2 := by
  have hcached : ∃ tg, lookupA (get_device_tilegrid e p1 cache).2 p1.device = some tg := by
    unfold get_device_tilegrid at h ⊢
    by_cases hroot : e.db_root = ""
    · rw [if_pos hroot] at h
      simp at h
    rw [if_neg hroot] at h ⊢
    cases hci : get_chip_info e.devices_info p1 with
    | error err =>
      rw [hci] at h
      simp at h
    | ok info =>
      rw [hci] at h
      cases hlk : lookupA cache p1.device with
      | some tg =>
        rw [hlk] at h
        refine ⟨tg, ?_⟩
        show lookupA cache p1.device = some tg
        exact hlk
      | none =>
        rw [hlk] at h
        cases hrj : read_json e (tilegrid_path e p1) with
        | error err =>
          rw [hrj] at h
          simp at h
        | ok tg =>
          rw [hrj] at h
          refine ⟨tg, ?_⟩
          show lookupA (insertA cache p1.device tg) p1.device = some tg
          exact lookupA_insert_self _ _ _
  obtain ⟨tg, htg⟩ := hcached
  have htg2 : lookupA (get_device_tilegrid e p1 cache).2 p2.device = some tg := by
    rw [hdev]
    exact htg
  generalize (get_device_tilegrid e p1 cache).2 = st at htg2
  unfold get_device_tilegrid
  by_cases hroot : e.db_root = ""
  · rw [if_pos (by exact hroot), if_pos hroot]
  · rw [if_neg (by exact hroot), if_neg hroot]
    cases hci : get_chip_info e.devices_info p2 with
    | error err => exact rfl
    | ok info =>
      rw [htg2]

/-- Witness for the amended claim C1: after the load for (A, D), the call
for (B, D) is insensitive to replacing the file system by an empty one. -/
theorem claim_C1_amended_witness :
    (get_device_tilegrid exEnvTg ⟨"A", "D"⟩ []).1 = .ok [exTileA] ∧
    get_device_tilegrid ⟨"r", exCatAB, [], fun _ => .ok ()⟩ ⟨"B", "D"⟩
        (get_device_tilegrid exEnvTg ⟨"A", "D"⟩ []).2
      = get_device_tilegrid exEnvTg ⟨"B", "D"⟩ (get_device_tilegrid exEnvTg ⟨"A", "D"⟩ []).2 :=
  ⟨rfl, claim_C1_tilegrid_cache_device_keyed exEnvTg ⟨"A", "D"⟩ ⟨"B", "D"⟩ [] [exTileA]
    rfl rfl [] (fun _ => .ok ())⟩

/-- The inner name scan returns only locators whose device equals the
searched name and whose family is the scanned family. -/
theorem findDevlist_name (name : String) :
    ∀ (devs : List (String × PTree)) (fam : String) (loc : DeviceLocator),
      findDevlist (fun n _ => .ok (n == name)) fam devs = .ok (some loc) →
      loc.device = name ∧ loc.family = fam := by
  intro devs
  induction devs with
  | nil =>
    intro fam loc h
    simp [findDevlist] at h
  | cons d rest ih =>
    intro fam loc h
    obtain ⟨dn, dp⟩ := d
    simp only [findDevlist, dbBind_ok] at h
    by_cases hn : (dn == name) = true
    · rw [if_pos hn] at h
      injection h with h2
      injection h2 with h3
      subst h3
      exact ⟨eq_of_beq hn, rfl⟩
    · rw [if_neg hn] at h
      exact ih fam loc h

/-- The outer name scan returns only locators whose device equals the
searched name. -/
theorem findFamlist_name (name : String) :
    ∀ (fams : List (String × PTree)) (loc : DeviceLocator),
      findFamlist (fun n _ => .ok (n == name)) fams = .ok (some loc) →
      loc.device = name := by
  intro fams
  induction fams with
  | nil => intro loc h; simp [findFamlist] at h
  | cons f rest ih =>
    intro loc h
    obtain ⟨fn, fp⟩ := f
    simp only [findFamlist] at h
    obtain ⟨devsN, hd, h2⟩ := bind_ok_elim h
    obtain ⟨r, hr, h3⟩ := bind_ok_elim h2
    cases r with
    | some l2 =>
      have h4 : (Except.ok (some l2) : Except DbError (Option DeviceLocator))
          = .ok (some loc) := h3
      injection h4 with h5
      injection h5 with h6
      subst h6
      exact (findDevlist_name name devsN.children fn l2 hr).1
    | none =>
      have h4 : findFamlist (fun n _ => .ok (n == name)) rest = .ok (some loc) := h3
      exact ih loc h4

/-- get_chip_info returns records whose family and name equal the locator
fields. -/
theorem get_chip_info_fields {cat : PTree} {part : DeviceLocator} {ci : ChipInfo}
    (h : get_chip_info cat part = .ok ci) :
    ci.family = part.family ∧ ci.name = part.device := by
  unfold get_chip_info at h
  obtain ⟨fams, h1, h⟩ := bind_ok_elim h
  obtain ⟨fam, h2, h⟩ := bind_ok_elim h
  obtain ⟨devsN, h3, h⟩ := bind_ok_elim h
  obtain ⟨dev, h4, h⟩ := bind_ok_elim h
  obtain ⟨nf, h5, h⟩ := bind_ok_elim h
  obtain ⟨bpf, h6, h⟩ := bind_ok_elim h
  obtain ⟨pa, h7, h⟩ := bind_ok_elim h
  obtain ⟨pb, h8, h⟩ := bind_ok_elim h
  obtain ⟨idc, h9, h⟩ := bind_ok_elim h
  obtain ⟨mr, h10, h⟩ := bind_ok_elim h
  obtain ⟨mc, h11, h⟩ := bind_ok_elim h
  obtain ⟨cb, h12, h⟩ := bind_ok_elim h
  injection h with h13
  subst h13
  exact ⟨rfl, rfl⟩

/-- find_device_by_name returns only locators whose device field is the
searched name. -/
theorem find_device_by_name_device {cat : PTree} {name : String} {loc : DeviceLocator}
    (h : find_device_by_name cat name = .ok loc) : loc.device = name := by
  unfold find_device_by_name find_device_generic at h
  obtain ⟨found, hfound, h⟩ := bind_ok_elim h
  obtain ⟨fams, h1, h2⟩ := bind_ok_elim hfound
  cases found with
  | some l2 =>
    have h3 : (Except.ok l2 : Except DbError DeviceLocator) = .ok loc := h
    injection h3 with h4
    subst h4
    exact findFamlist_name name fams.children l2 h2
  | none =>
    have h3 : (Except.error DbError.notFound : Except DbError DeviceLocator) = .ok loc := h
    exact absurd h3 (by simp)

/-- Claim C5: for every device name resolved by find_device_by_name, the
ChipInfo obtained through get_chip_info carries the family and device of
the locator (hence the searched name), and on the synthetic catalog with
one family F and one device D with idcode string 0x10 and frames 4 the
round trip yields family F, name D, idcode 16 and num_frames 4. -/
theorem claim_C5_name_roundtrip :
    (∀ (cat : PTree) (name : String) (loc : DeviceLocator) (ci : ChipInfo),
      find_device_by_name cat name = .ok loc →
      get_chip_info cat loc = .ok ci →
      ci.family = loc.family ∧ ci.name = loc.device ∧ ci.name = name) ∧
    find_device_by_name exCatF "D" = .ok ⟨"F", "D"⟩ ∧
    (get_chip_info exCatF ⟨"F", "D"⟩).map
        (fun ci => (ci.family, ci.name, ci.idcode, ci.num_frames))
      = .ok ("F", "D", 16, 4) := by
  refine ⟨?_, rfl, rfl⟩
  intro cat name loc ci hf hc
  obtain ⟨h1, h2⟩ := get_chip_info_fields hc
  exact ⟨h1, h2, h2.trans (find_device_by_name_device hf)⟩

/-- Witness for claim C5 at the synthetic catalog F with device D. -/
theorem claim_C5_witness :
    find_device_by_name exCatF "D" = .ok ⟨"F", "D"⟩ ∧
    get_chip_info exCatF ⟨"F", "D"⟩ = .ok ⟨"F", "D", 4, 2, 1, 0, 16, 5, 6, 0⟩ ∧
    (("F" : String) = "F" ∧ ("D" : String) = "D" ∧ ("D" : String) = "D") :=
  ⟨rfl, rfl, claim_C5_name_roundtrip.1 exCatF "D" ⟨"F", "D"⟩
    ⟨"F", "D", 4, 2, 1, 0, 16, 5, 6, 0⟩ rfl rfl⟩

/-- The inner device loop is the flat scan of the per family block of the
flattened catalog, continued on the rest. -/
theorem findDevlist_scanFlat (f : String → PTree → Except DbError Bool) (fam : String) :
    ∀ (devs : List (String × PTree)) (rest : List (String × String × PTree)),
      scanFlat f (devs.map (fun d => (fam, d.1, d.2)) ++ rest) =
        (findDevlist f fam devs) >>= fun r =>
          match r with
          | some loc => .ok (some loc)
          | none => scanFlat f rest := by
  intro devs
  induction devs with
  | nil => intro rest; rfl
  | cons d ds ih =>
    intro rest
    obtain ⟨dn, dp⟩ := d
    simp only [List.map_cons, List.cons_append, scanFlat, findDevlist]
    cases hfr : f dn dp with
    | error e => simp
    | ok b =>
      cases b with
      | true => simp
      | false => simp [ih rest]

/-- The outer family loop is the flat scan of the flattened catalog,
continued on the rest. -/
theorem findFamlist_scanFlat (f : String → PTree → Except DbError Bool) :
    ∀ (fams : List (String × PTree)) (parts : List (List (String × String × PTree)))
      (rest : List (String × String × PTree)),
      mapME (fun fm => do
          let devsN ← fm.2.get_child "devices"
          .ok (devsN.children.map (fun d => (fm.1, d.1, d.2)))) fams = .ok parts →
      scanFlat f (parts.flatten ++ rest) =
        (findFamlist f fams) >>= fun r =>
          match r with
          | some loc => .ok (some loc)
          | none => scanFlat f rest := by
  intro fams
  induction fams with
  | nil =>
    intro parts rest h
    simp only [mapME] at h
    injection h with h2
    subst h2
    rfl
  | cons fm fs ih =>
    intro parts rest h
    obtain ⟨fn, fp⟩ := fm
    simp only [mapME] at h
    obtain ⟨x, hx, h2⟩ := bind_ok_elim h
    obtain ⟨xs, hxs, h3⟩ := bind_ok_elim h2
    injection h3 with h4
    subst h4
    obtain ⟨devsN, hdevs, hx2⟩ := bind_ok_elim hx
    have hx3 : x = devsN.children.map (fun d => (fn, d.1, d.2)) := by
      injection hx2 with h5
      exact h5.symm
    subst hx3
    simp only [List.flatten_cons, List.append_assoc]
    rw [findDevlist_scanFlat f fn devsN.children (xs.flatten ++ rest)]
    simp only [findFamlist, hdevs, dbBind_ok]
    cases hr : findDevlist f fn devsN.children with
    | error e => simp
    | ok r =>
      cases r with
      | some loc => simp
      | none => simp [ih xs rest hxs]

/-- The specification first match over the flat catalog is the flat scan
with the idcode predicate followed by the NotFound completion. -/
theorem firstIdcodeMatch_scanFlat (idcode : Nat) :
    ∀ (l : List (String × String × PTree)),
      firstIdcodeMatch l idcode =
        (scanFlat (fun _ p => do
            let s ← p.getStr "idcode"
            .ok (parse_uint32 s == idcode)) l) >>= fun r =>
          match r with
          | some loc => .ok loc
          | none => .error .notFound := by
  intro l
  induction l with
  | nil => rfl
  | cons e rest ih =>
    obtain ⟨fn, dn, dp⟩ := e
    simp only [firstIdcodeMatch, scanFlat]
    cases hs : dp.getStr "idcode" with
    | error err => simp
    | ok s =>
      simp only [dbBind_ok]
      by_cases hp : parse_uint32 s = idcode
      · simp [hp]
      · simp only [if_neg hp, ih]
        rw [if_neg (by simpa using hp)]

/-- A flat catalog in which every idcode string reads successfully and
parses to a different value gives NotFound in the specification scan. -/
theorem firstIdcodeMatch_none (idcode : Nat) :
    ∀ (l : List (String × String × PTree)),
      (∀ p ∈ l, ∃ s, p.2.2.getStr "idcode" = .ok s ∧ parse_uint32 s ≠ idcode) →
      firstIdcodeMatch l idcode = .error .notFound := by
  intro l
  induction l with
  | nil => intro _; rfl
  | cons e rest ih =>
    intro h
    obtain ⟨fn, dn, dp⟩ := e
    obtain ⟨s, hs, hne⟩ := h _ (List.mem_cons_self _ _)
    simp only [firstIdcodeMatch, hs, dbBind_ok]
    rw [if_neg hne]
    exact ih (fun p hp => h p (List.mem_cons_of_mem _ hp))

/-- Claim C4: find_device_by_idcode is the first match scan over the
catalog in file order, where each stored idcode string is parsed by
parse_uint32 (strtoul with base 0, accepting decimal and 0x hexadecimal);
the strings 0x1234 and 4660 parse to the identical value 4660; and when
no candidate matches the scan the call fails with NotFound. -/
theorem claim_C4_idcode_lookup :
    (∀ (cat : PTree) (l : List (String × String × PTree)) (idcode : Nat),
      flattenCatalog cat = .ok l →
      find_device_by_idcode cat idcode = firstIdcodeMatch l idcode) ∧
    (∀ (cat : PTree) (l : List (String × String × PTree)) (idcode : Nat),
      flattenCatalog cat = .ok l →
      (∀ p ∈ l, ∃ s, p.2.2.getStr "idcode" = .ok s ∧ parse_uint32 s ≠ idcode) →
      find_device_by_idcode cat idcode = .error .notFound) ∧
    parse_uint32 "0x1234" = 4660 ∧ parse_uint32 "4660" = 4660 := by
  have main : ∀ (cat : PTree) (l : List (String × String × PTree)) (idcode : Nat),
      flattenCatalog cat = .ok l →
      find_device_by_idcode cat idcode = firstIdcodeMatch l idcode := by
    intro cat l idcode hflat
    unfold flattenCatalog at hflat
    obtain ⟨fams, hfams, h2⟩ := bind_ok_elim hflat
    obtain ⟨parts, hparts, h3⟩ := bind_ok_elim h2
    have hl : l = parts.flatten := by
      injection h3 with h4
      exact h4.symm
    subst hl
    rw [firstIdcodeMatch_scanFlat]
    rw [show parts.flatten = parts.flatten ++ [] by simp]
    rw [findFamlist_scanFlat _ fams.children parts [] hparts]
    unfold find_device_by_idcode find_device_generic
    rw [hfams]
    simp only [dbBind_ok]
    cases hr : findFamlist (fun _ p => do
        let s ← p.getStr "idcode"
        .ok (parse_uint32 s == idcode)) fams.children with
    | error e => simp
    | ok r =>
      cases r with
      | some loc => simp [scanFlat]
      | none => simp [scanFlat]
  refine ⟨main, ?_, rfl, rfl⟩
  intro cat l idcode hflat hnone
  rw [main cat l idcode hflat]
  exact firstIdcodeMatch_none idcode l hnone

/-- Witness for claim C4 on the synthetic catalog: the flat view, the
equivalence at two idcodes, and the NotFound case at idcode 99. -/
theorem claim_C4_witness :
    flattenCatalog exCatF = .ok exFlatF ∧
    find_device_by_idcode exCatF 4660 = firstIdcodeMatch exFlatF 4660 ∧
    find_device_by_idcode exCatF 16 = firstIdcodeMatch exFlatF 16 ∧
    find_device_by_idcode exCatF 99 = .error .notFound :=
  ⟨rfl, claim_C4_idcode_lookup.1 exCatF exFlatF 4660 rfl,
    claim_C4_idcode_lookup.1 exCatF exFlatF 16 rfl,
    claim_C4_idcode_lookup.2.1 exCatF exFlatF 99 rfl (by
      intro p hp
      simp only [exFlatF, List.mem_singleton] at hp
      subst hp
      exact ⟨"0x10", rfl, by decide⟩)⟩

/-- A decimal digit is not C whitespace. -/
theorem isDigitC_not_space {c : Char} (h : isDigitC c = true) : cIsSpace c = false := by
  simp [isDigitC] at h
  simp [cIsSpace]
  omega

/-- A decimal digit is not the minus sign. -/
theorem isDigitC_ne_minus {c : Char} (h : isDigitC c = true) : c ≠ '-' := by
  intro he
  subst he
  exact absurd h (by decide)

/-- A decimal digit is not the plus sign. -/
theorem isDigitC_ne_plus {c : Char} (h : isDigitC c = true) : c ≠ '+' := by
  intro he
  subst he
  exact absurd h (by decide)

/-- stoi on a nonempty all digit string returns the decimal value of the
digits. -/
theorem stoi_digits {ds : List Char} {x : Int} (hne : ds ≠ [])
    (hd : ∀ c ∈ ds, isDigitC c = true) (h : stoi ⟨ds⟩ = .ok x) :
    x = (digitsVal ds : Int) := by
  cases ds with
  | nil => exact absurd rfl hne
  | cons c r =>
    have hc : isDigitC c = true := hd c (List.mem_cons_self _ _)
    have hdrop : (c :: r).dropWhile cIsSpace = c :: r :=
      dropWhile_nospace r (isDigitC_not_space hc)
    have hsign : dropSign (c :: r) = (false, c :: r) :=
      dropSign_nosign (isDigitC_ne_minus hc) (isDigitC_ne_plus hc)
    have hrun : digitsRun isDigitC 10 (c :: r) 0 =
        (c :: r).foldl (fun a d => a * 10 + (d.toNat - 48)) 0 :=
      digitsRun_digits (c :: r) 0 hd
    have hcompute : stoi ⟨c :: r⟩ =
        if ((digitsVal (c :: r) : Int) < -2147483648
            ∨ 2147483647 < (digitsVal (c :: r) : Int))
          then (.error .parseError : Except DbError Int)
          else .ok ((digitsVal (c :: r) : Int)) := by
      unfold stoi
      simp only [show (⟨c :: r⟩ : String).data = c :: r from rfl]
      rw [hdrop, hsign]
      show (if isDigitC c = true then
          if (((digitsRun isDigitC 10 (c :: r) 0 : Nat) : Int) < -2147483648
              ∨ 2147483647 < ((digitsRun isDigitC 10 (c :: r) 0 : Nat) : Int))
            then (.error .parseError : Except DbError Int)
            else .ok ((digitsRun isDigitC 10 (c :: r) 0 : Nat) : Int)
        else .error .parseError) = _
      rw [if_pos hc, hrun]
      simp only [digitsVal]
    rw [hcompute] at h
    split at h
    · exact absurd h (by simp)
    · injection h with h2
      exact h2.symm

/-- A tap entry keyed by C followed by digits decodes the digits into the
tap column. -/
theorem parseTap_key {ds : List Char} {body : PTree} {t : TapSegment}
    (h : parseTap (⟨'C' :: ds⟩, body) = .ok t) (hne : ds ≠ [])
    (hd : ∀ c ∈ ds, isDigitC c = true) :
    t.tap_col = (digitsVal ds : Int) := by
  have hsub : substrFrom ⟨'C' :: ds⟩ 1 = .ok ⟨ds⟩ := by
    unfold substrFrom
    rw [if_pos (by simp)]
    rfl
  have h2 : (do
      let sub ← substrFrom ⟨'C' :: ds⟩ 1
      let tc ← stoi sub
      let lx0 ← body.getInt "lx0"
      let lx1 ← body.getInt "lx1"
      let rx0 ← body.getInt "rx0"
      let rx1 ← body.getInt "rx1"
      (.ok ⟨tc, lx0, lx1, rx0, rx1⟩ : Except DbError TapSegment)) = .ok t := h
  rw [hsub] at h2
  simp only [dbBind_ok] at h2
  obtain ⟨tc, htc, h3⟩ := bind_ok_elim h2
  obtain ⟨lx0, hl0, h3⟩ := bind_ok_elim h3
  obtain ⟨lx1, hl1, h3⟩ := bind_ok_elim h3
  obtain ⟨rx0, hr0, h3⟩ := bind_ok_elim h3
  obtain ⟨rx1, hr1, h3⟩ := bind_ok_elim h3
  injection h3 with h4
  subst h4
  exact stoi_digits hne hd htc

/-- A spine entry whose key is two characters followed by digits decodes
into that two character quadrant and the digit value as tap column. -/
theorem parseSpine_key {a b : Char} {ds : List Char} {body : PTree} {s : SpineSegment}
    (h : parseSpine (⟨a :: b :: ds⟩, body) = .ok s) (hne : ds ≠ [])
    (hd : ∀ c ∈ ds, isDigitC c = true) :
    s.quadrant = ⟨[a, b]⟩ ∧ s.tap_col = (digitsVal ds : Int) := by
  have hsub : substrFrom ⟨a :: b :: ds⟩ 2 = .ok ⟨ds⟩ := by
    unfold substrFrom
    rw [if_pos (by simp)]
    rfl
  unfold parseSpine at h
  rw [hsub] at h
  simp only [dbBind_ok] at h
  obtain ⟨tc, htc, h3⟩ := bind_ok_elim h
  obtain ⟨y, hy, h3⟩ := bind_ok_elim h3
  obtain ⟨x, hx, h3⟩ := bind_ok_elim h3
  injection h3 with h4
  subst h4
  exact ⟨rfl, stoi_digits hne hd htc⟩

/-- Claim C8: ECP5 globals loading appends quadrants, taps and spines to
the result sequences in file order (pointwise in order, with the lengths
of the children lists), succeeds whenever every entry parses regardless
of arrangement (no ordering constraint), and decodes composite keys: a
tap keyed C followed by digits yields those digits as tap_col, a spine
key yields its first two characters as quadrant and the following digits
as tap_col. -/
theorem claim_C8_ecp5_structure :
    (∀ (e : Env) (part : DeviceLocator) (tree qn tn sn : PTree) (glbs : Ecp5GlobalsInfo),
      read_json e (globals_path e part) = .ok tree →
      tree.get_child "quadrants" = .ok qn →
      tree.get_child "taps" = .ok tn →
      tree.get_child "spines" = .ok sn →
      get_global_info_ecp5 e part = .ok glbs →
      (glbs.quadrants.length = qn.children.length ∧
       glbs.tapsegs.length = tn.children.length ∧
       glbs.spinesegs.length = sn.children.length ∧
       (∀ (i : Nat) (hi : i < qn.children.length) (hb : i < glbs.quadrants.length),
         parseQuad (qn.children.get ⟨i, hi⟩) = .ok (glbs.quadrants.get ⟨i, hb⟩)) ∧
       (∀ (i : Nat) (hi : i < tn.children.length) (hb : i < glbs.tapsegs.length),
         parseTap (tn.children.get ⟨i, hi⟩) = .ok (glbs.tapsegs.get ⟨i, hb⟩)) ∧
       (∀ (i : Nat) (hi : i < sn.children.length) (hb : i < glbs.spinesegs.length),
         parseSpine (sn.children.get ⟨i, hi⟩) = .ok (glbs.spinesegs.get ⟨i, hb⟩)))) ∧
    (∀ (l : List (String × PTree)), (∀ c ∈ l, ∃ t, parseTap c = .ok t) →
      ∃ ts, mapME parseTap l = .ok ts) ∧
    (∀ (ds : List Char) (body : PTree) (t : TapSegment),
      parseTap (⟨'C' :: ds⟩, body) = .ok t → ds ≠ [] → (∀ c ∈ ds, isDigitC c = true) →
      t.tap_col = (digitsVal ds : Int)) ∧
    (∀ (a b : Char) (ds : List Char) (body : PTree) (s : SpineSegment),
      parseSpine (⟨a :: b :: ds⟩, body) = .ok s → ds ≠ [] → (∀ c ∈ ds, isDigitC c = true) →
      s.quadrant = ⟨[a, b]⟩ ∧ s.tap_col = (digitsVal ds : Int)) := by
  refine ⟨?_, fun l h => mapME_total h, fun ds body t h h1 h2 => parseTap_key h h1 h2,
    fun a b ds body s h h1 h2 => parseSpine_key h h1 h2⟩
  intro e part tree qn tn sn glbs hread hqn htn hsn h
  unfold get_global_info_ecp5 at h
  rw [hread] at h
  simp only [dbBind_ok] at h
  rw [hqn] at h
  simp only [dbBind_ok] at h
  obtain ⟨quads, hquads, h⟩ := bind_ok_elim h
  rw [htn] at h
  simp only [dbBind_ok] at h
  obtain ⟨taps, htaps, h⟩ := bind_ok_elim h
  rw [hsn] at h
  simp only [dbBind_ok] at h
  obtain ⟨spines, hspines, h⟩ := bind_ok_elim h
  injection h with h4
  subst h4
  exact ⟨mapME_ok_length hquads, mapME_ok_length htaps, mapME_ok_length hspines,
    fun i hi hb => mapME_ok_get hquads i hi hb,
    fun i hi hb => mapME_ok_get htaps i hi hb,
    fun i hi hb => mapME_ok_get hspines i hi hb⟩

/-- Witness for claim C8 on the sample ECP5 file: the file order lengths,
the key decodings for C7 and UL3, and parse success of the tap list. -/
theorem claim_C8_witness :
    exEcp5Glbs.tapsegs.length = exEcp5Taps.children.length ∧
    ((⟨7, 0, 1, 2, 3⟩ : TapSegment).tap_col = (digitsVal ['7'] : Int)) ∧
    ((⟨"UL", 3, 9, 8⟩ : SpineSegment).quadrant = ⟨['U', 'L']⟩ ∧
     (⟨"UL", 3, 9, 8⟩ : SpineSegment).tap_col = (digitsVal ['3'] : Int)) ∧
    (∃ ts, mapME parseTap exEcp5Taps.children = .ok ts) :=
  ⟨(claim_C8_ecp5_structure.1 exEnvEcp5 ⟨"ECP5", "dev"⟩ exEcp5Tree exEcp5Quads exEcp5Taps
      exEcp5Spines exEcp5Glbs rfl rfl rfl rfl rfl).2.1,
   claim_C8_ecp5_structure.2.2.1 ['7'] exTapBody ⟨7, 0, 1, 2, 3⟩ rfl (by decide) (by decide),
   claim_C8_ecp5_structure.2.2.2 'U' 'L' ['3'] exSpineBody ⟨"UL", 3, 9, 8⟩ rfl
     (by decide) (by decide),
   claim_C8_ecp5_structure.2.1 exEcp5Taps.children (by
     intro c hc
     simp only [exEcp5Taps, PTree.children, List.mem_singleton] at hc
     subst hc
     exact ⟨⟨7, 0, 1, 2, 3⟩, rfl⟩)⟩

/-- countK distributes over append. -/
theorem countK_append (k : TileLocator) :
    ∀ (l1 l2 : List TileLocator), countK k (l1 ++ l2) = countK k l1 + countK k l2 := by
  intro l1
  induction l1 with
  | nil => intro l2; simp [countK]
  | cons t r ih =>
    intro l2
    simp only [List.cons_append, countK, List.append_eq, ih]
    omega

/-- collectFor at the key of the head call with an ok result. -/
theorem collectFor_cons_ok_self (t : TileLocator) (ts : List TileLocator) (x : Nat)
    (rs : List (Except DbError Nat)) :
    collectFor (t :: ts) (.ok x :: rs) t = x :: collectFor ts rs t := by
  simp [collectFor, List.filterMap_cons, Except.toOption]

/-- collectFor at the key of the head call with an error result. -/
theorem collectFor_cons_err_self (t : TileLocator) (ts : List TileLocator) (err : DbError)
    (rs : List (Except DbError Nat)) :
    collectFor (t :: ts) (.error err :: rs) t = collectFor ts rs t := by
  simp [collectFor, List.filterMap_cons, Except.toOption]

/-- collectFor ignores a head call with a different key. -/
theorem collectFor_cons_ne (t k : TileLocator) (ts : List TileLocator)
    (r : Except DbError Nat) (rs : List (Except DbError Nat)) (h : t ≠ k) :
    collectFor (t :: ts) (r :: rs) k = collectFor ts rs k := by
  simp [collectFor, List.filterMap_cons, h]

/-- A store hit returns the stored handle and leaves the state alone. -/
theorem get_tile_bitdata_hit (e : Env) (k : TileLocator) (st : BitdbState) (h : Nat)
    (hk : lookupA st.store k = some h) : get_tile_bitdata e k st = (.ok h, st) := by
  unfold get_tile_bitdata
  rw [hk]

/-- A miss with an unset database root fails the assert, leaving the
state alone. -/
theorem get_tile_bitdata_assert (e : Env) (k : TileLocator) (st : BitdbState)
    (hmiss : lookupA st.store k = none) (hroot : e.db_root = "") :
    get_tile_bitdata e k st = (.error .consistencyError, st) := by
  unfold get_tile_bitdata
  rw [hmiss, hroot]
  rfl

/-- A miss whose construction fails propagates the error and leaves the
state alone: nothing is inserted. -/
theorem get_tile_bitdata_fail (e : Env) (k : TileLocator) (st : BitdbState) (err : DbError)
    (hmiss : lookupA st.store k = none) (hroot : e.db_root ≠ "")
    (hc : e.bitdb_ctor (bitdb_path e k) = .error err) :
    get_tile_bitdata e k st = (.error err, st) := by
  unfold get_tile_bitdata
  rw [hmiss, if_neg hroot, hc]

/-- A miss whose construction succeeds returns a fresh handle, inserts it
and logs the construction. -/
theorem get_tile_bitdata_construct (e : Env) (k : TileLocator) (st : BitdbState)
    (hmiss : lookupA st.store k = none) (hroot : e.db_root ≠ "")
    (hc : e.bitdb_ctor (bitdb_path e k) = .ok ()) :
    get_tile_bitdata e k st
      = (.ok st.next, ⟨insertA st.store k st.next, st.next + 1, st.log ++ [k]⟩) := by
  unfold get_tile_bitdata
  rw [hmiss, if_neg hroot, hc]

/-- A call with a different key preserves the binding and the logged
construction count of a key. -/
theorem get_tile_bitdata_other (e : Env) (t k : TileLocator) (st : BitdbState) (htk : t ≠ k) :
    lookupA (get_tile_bitdata e t st).2.store k = lookupA st.store k ∧
    countK k (get_tile_bitdata e t st).2.log = countK k st.log := by
  unfold get_tile_bitdata
  cases hlk : lookupA st.store t with
  | some h => exact ⟨rfl, rfl⟩
  | none =>
    by_cases hroot : e.db_root = ""
    · rw [if_pos hroot]
      exact ⟨rfl, rfl⟩
    · rw [if_neg hroot]
      cases hc : e.bitdb_ctor (bitdb_path e t) with
      | error err => exact ⟨rfl, rfl⟩
      | ok u =>
        refine ⟨?_, ?_⟩
        · show lookupA (insertA st.store t st.next) k = lookupA st.store k
          exact lookupA_insert_ne _ _ _ _ (Ne.symm htk)
        · show countK k (st.log ++ [t]) = countK k st.log
          rw [countK_append]
          simp [countK, htk]

/-- Once a key is cached, any further run preserves its binding and its
construction count, and every ok result the run returns for that key is
the cached handle. -/
theorem run_cached (e : Env) (k : TileLocator) (h : Nat) :
    ∀ (calls : List TileLocator) (st : BitdbState),
      lookupA st.store k = some h →
      lookupA (runCalls e calls st).2.store k = some h ∧
      countK k (runCalls e calls st).2.log = countK k st.log ∧
      ∀ x ∈ collectFor calls (runCalls e calls st).1 k, x = h := by
  intro calls
  induction calls with
  | nil =>
    intro st hst
    refine ⟨hst, rfl, ?_⟩
    intro x hx
    simp [collectFor] at hx
  | cons t ts ih =>
    intro st hst
    have hrun0 : runCalls e (t :: ts) st
        = ((get_tile_bitdata e t st).1 :: (runCalls e ts (get_tile_bitdata e t st).2).1,
           (runCalls e ts (get_tile_bitdata e t st).2).2) := rfl
    by_cases htk : t = k
    · subst htk
      have hstep : get_tile_bitdata e t st = (.ok h, st) := get_tile_bitdata_hit e t st h hst
      rw [hrun0, hstep]
      dsimp only
      obtain ⟨ih1, ih2, ih3⟩ := ih st hst
      refine ⟨ih1, ih2, ?_⟩
      intro x hx
      rw [collectFor_cons_ok_self] at hx
      rcases List.mem_cons.mp hx with rfl | hx2
      · rfl
      · exact ih3 x hx2
    · obtain ⟨hp1, hp2⟩ := get_tile_bitdata_other e t k st htk
      rw [hrun0]
      dsimp only
      obtain ⟨ih1, ih2, ih3⟩ := ih (get_tile_bitdata e t st).2 (by rw [hp1]; exact hst)
      refine ⟨ih1, by rw [ih2, hp2], ?_⟩
      intro x hx
      rw [collectFor_cons_ne t k ts _ _ htk] at hx
      exact ih3 x hx

/-- From a state in which a key is absent and was never constructed, any
run constructs it at most once and returns pairwise equal ok results for
it. -/
theorem run_fresh (e : Env) (k : TileLocator) :
    ∀ (calls : List TileLocator) (st : BitdbState),
      lookupA st.store k = none → countK k st.log = 0 →
      countK k (runCalls e calls st).2.log ≤ 1 ∧
      ∀ x ∈ collectFor calls (runCalls e calls st).1 k,
        ∀ y ∈ collectFor calls (runCalls e calls st).1 k, x = y := by
  intro calls
  induction calls with
  | nil =>
    intro st h1 h2
    refine ⟨by simp [runCalls, h2], ?_⟩
    intro x hx
    simp [collectFor] at hx
  | cons t ts ih =>
    intro st h1 h2
    have hrun0 : runCalls e (t :: ts) st
        = ((get_tile_bitdata e t st).1 :: (runCalls e ts (get_tile_bitdata e t st).2).1,
           (runCalls e ts (get_tile_bitdata e t st).2).2) := rfl
    by_cases htk : t = k
    · subst htk
      by_cases hroot : e.db_root = ""
      · have hstep : get_tile_bitdata e t st = (.error .consistencyError, st) :=
          get_tile_bitdata_assert e t st h1 hroot
        rw [hrun0, hstep]
        dsimp only
        obtain ⟨ih1, ih2⟩ := ih st h1 h2
        refine ⟨ih1, ?_⟩
        intro x hx y hy
        rw [collectFor_cons_err_self] at hx hy
        exact ih2 x hx y hy
      · cases hc : e.bitdb_ctor (bitdb_path e t) with
        | error err =>
          have hstep : get_tile_bitdata e t st = (.error err, st) :=
            get_tile_bitdata_fail e t st err h1 hroot hc
          rw [hrun0, hstep]
          dsimp only
          obtain ⟨ih1, ih2⟩ := ih st h1 h2
          refine ⟨ih1, ?_⟩
          intro x hx y hy
          rw [collectFor_cons_err_self] at hx hy
          exact ih2 x hx y hy
        | ok u =>
          obtain ⟨⟩ := u
          have hstep : get_tile_bitdata e t st
              = (.ok st.next, ⟨insertA st.store t st.next, st.next + 1, st.log ++ [t]⟩) :=
            get_tile_bitdata_construct e t st h1 hroot hc
          rw [hrun0, hstep]
          dsimp only
          obtain ⟨c1, c2, c3⟩ := run_cached e t st.next ts
            ⟨insertA st.store t st.next, st.next + 1, st.log ++ [t]⟩
            (lookupA_insert_self _ _ _)
          refine ⟨?_, ?_⟩
          · rw [c2]
            show countK t (st.log ++ [t]) ≤ 1
            rw [countK_append, h2]
            simp [countK]
          · intro x hx y hy
            rw [collectFor_cons_ok_self] at hx hy
            rcases List.mem_cons.mp hx with rfl | hx2
            · rcases List.mem_cons.mp hy with rfl | hy2
              · rfl
              · exact (c3 y hy2).symm
            · rcases List.mem_cons.mp hy with rfl | hy2
              · exact c3 x hx2
              · rw [c3 x hx2, c3 y hy2]
    · obtain ⟨hp1, hp2⟩ := get_tile_bitdata_other e t k st htk
      rw [hrun0]
      dsimp only
      obtain ⟨ih1, ih2⟩ := ih (get_tile_bitdata e t st).2
        (by rw [hp1]; exact h1) (by rw [hp2]; exact h2)
      refine ⟨ih1, ?_⟩
      intro x hx y hy
      rw [collectFor_cons_ne t k ts _ _ htk] at hx hy
      exact ih2 x hx y hy

/-- Claim C3: a store hit returns the stored handle with the state
untouched, and over any call sequence from process start, each key is
constructed at most once and all successful results for one key are the
identical handle. -/
theorem claim_C3_bitdb_single_load :
    (∀ (e : Env) (st : BitdbState) (k : TileLocator) (h : Nat),
      lookupA st.store k = some h → get_tile_bitdata e k st = (.ok h, st)) ∧
    (∀ (e : Env) (calls : List TileLocator) (k : TileLocator),
      countK k (runCalls e calls initBitdb).2.log ≤ 1 ∧
      ∀ x ∈ okResultsFor e calls k, ∀ y ∈ okResultsFor e calls k, x = y) := by
  refine ⟨fun e st k h hk => get_tile_bitdata_hit e k st h hk, ?_⟩
  intro e calls k
  exact run_fresh e k calls initBitdb rfl rfl

/-- Witness for claim C3: a store already holding handle 5 for a key
returns exactly that handle, untouched state. -/
theorem claim_C3_witness :
    lookupA (⟨[(⟨"f", "t"⟩, 5)], 6, [⟨"f", "t"⟩]⟩ : BitdbState).store ⟨"f", "t"⟩ = some 5 ∧
    get_tile_bitdata exEnvBitOk ⟨"f", "t"⟩ ⟨[(⟨"f", "t"⟩, 5)], 6, [⟨"f", "t"⟩]⟩
      = (.ok 5, ⟨[(⟨"f", "t"⟩, 5)], 6, [⟨"f", "t"⟩]⟩) :=
  ⟨rfl, claim_C3_bitdb_single_load.1 exEnvBitOk ⟨[(⟨"f", "t"⟩, 5)], 6, [⟨"f", "t"⟩]⟩
    ⟨"f", "t"⟩ 5 rfl⟩

/-- Claim C10: when the TileBitDatabase constructor throws for a key not
in the store, get_tile_bitdata propagates the error and the cache is left
unchanged for that key (no entry, no null handle is stored), so a
subsequent call with the same key attempts the load again: under an
environment whose constructor now succeeds, the same state yields a fresh
construction. -/
theorem claim_C10_bitdb_error_no_insert (e : Env) (tile : TileLocator) (st : BitdbState)
    (err : DbError)
    (hmiss : lookupA st.store tile = none)
    (hroot : e.db_root ≠ "")
    (hctor : e.bitdb_ctor (bitdb_path e tile) = .error err) :
    get_tile_bitdata e tile st = (.error err, st) ∧
    ∀ e2 : Env, e2.db_root ≠ "" → e2.bitdb_ctor (bitdb_path e2 tile) = .ok () →
      get_tile_bitdata e2 tile st
        = (.ok st.next, ⟨insertA st.store tile st.next, st.next + 1, st.log ++ [tile]⟩) := by
  refine ⟨get_tile_bitdata_fail e tile st err hmiss hroot hctor, ?_⟩
  intro e2 hroot2 hctor2
  exact get_tile_bitdata_construct e2 tile st hmiss hroot2 hctor2

/-- Witness for claim C10: the failing constructor environment leaves the
empty state unchanged, and the succeeding environment then loads. -/
theorem claim_C10_witness :
    get_tile_bitdata exEnvBitFail ⟨"f", "t"⟩ initBitdb = (.error .ioError, initBitdb) ∧
    get_tile_bitdata exEnvBitOk ⟨"f", "t"⟩ initBitdb
      = (.ok 0, ⟨insertA [] ⟨"f", "t"⟩ 0, 1, [⟨"f", "t"⟩]⟩) :=
  ⟨(claim_C10_bitdb_error_no_insert exEnvBitFail ⟨"f", "t"⟩ initBitdb .ioError rfl
      (by decide) rfl).1,
   (claim_C10_bitdb_error_no_insert exEnvBitFail ⟨"f", "t"⟩ initBitdb .ioError rfl
      (by decide) rfl).2 exEnvBitOk (by decide) rfl⟩

end Trellis
